import Mathlib

/-!
Verification of the NeteaseMusicDeduplication resolution engine
(src/main.rs), as a shallow embedding in Lean.

Strings are modelled as lists of characters (`Str`).  A file path appears
in the program only through its final segment (Rust `file_stem` /
`extension` act on the file name), so `Str` values model file names.
Rust `char::is_whitespace` (Unicode) is modelled by `Char.isWhitespace`
(ASCII whitespace), and the regex class `\d` by `Char.isDigit`; the
claims under study only involve ASCII inputs.
-/

namespace NMD

abbrev Str := List Char

/-- Rust `u128::abs_diff` (used on `duration` values, which never underflow
in `Nat` thanks to the explicit comparison). -/
def absDiff (a b : Nat) : Nat := if b ≤ a then a - b else b - a

/-- Rust `str::trim`: drop whitespace from both ends (`List.rdropWhile p l`
is `(l.reverse.dropWhile p).reverse`). -/
def trim (s : Str) : Str :=
  List.rdropWhile Char.isWhitespace (s.dropWhile Char.isWhitespace)

/-- Helper for Rust `core::path::split_file_at_dot`: split `l` at its LAST
dot, returning the parts before and after the dot.  `none` when `l` has
no dot. -/
def splitLastDot : Str → Option (Str × Str)
  | [] => none
  | c :: cs =>
    match splitLastDot cs with
    | some (a, b) => some (c :: a, b)
    | none => if c = '.' then some ([], cs) else none

/-- Rust `core::path::split_file_at_dot` on a file name: the stem/extension
split.  The search for the dot skips the first character (a leading dot
does not start an extension), and the literal name `..` is never split. -/
def fileStemExt (f : Str) : Str × Option Str :=
  if f = ['.', '.'] then (f, none)
  else
    match f with
    | [] => ([], none)
    | c :: cs =>
      match splitLastDot cs with
      | none => (c :: cs, none)
      | some (a, b) => (c :: a, some b)

/-- Rust `Path::file_stem` on a one-segment path: `None` when the path has
no file name (empty, `.` or `..`). -/
def fileStem (f : Str) : Option Str :=
  if f = [] ∨ f = ['.'] ∨ f = ['.', '.'] then none else some (fileStemExt f).1

/-- Rust `Path::extension` on a one-segment path. -/
def extensionOf (f : Str) : Option Str :=
  if f = [] ∨ f = ['.'] ∨ f = ['.', '.'] then none else (fileStemExt f).2

/-- The trailing `(<digits>)` test of the regex `\(\d+\)$`, phrased on the
REVERSED stem: a closing paren, then one or more digits, then an opening
paren.  Returns the reversed remainder when the suffix is present. -/
def stripParenCountRev (revStem : Str) : Option Str :=
  match revStem with
  | ')' :: rest =>
    let ds := rest.takeWhile Char.isDigit
    let rest2 := rest.dropWhile Char.isDigit
    if ds = [] then none
    else
      match rest2 with
      | '(' :: rest3 => some rest3
      | _ => none
  | _ => none

/-- `Regex::new(r"\(\d+\)$").replace_all(stem, "")`: the anchor `$` means
at most one match, the trailing `(<digits>)` group, is removed. -/
def stripStem (stem : Str) : Str :=
  match stripParenCountRev stem.reverse with
  | some r => r.reverse
  | none => stem

/-- One decimal digit, as produced by Rust integer formatting.  Only ever
applied to values `< 10`. -/
def digitChar (d : Nat) : Char :=
  if d = 0 then '0' else if d = 1 then '1' else if d = 2 then '2'
  else if d = 3 then '3' else if d = 4 then '4' else if d = 5 then '5'
  else if d = 6 then '6' else if d = 7 then '7' else if d = 8 then '8'
  else '9'

/-- Decimal digits of `n`, most significant first; structurally recursive
on a fuel argument so that it reduces definitionally (`fuel ≥ n`
suffices). -/
def natDigitsAux : Nat → Nat → Str
  | 0, _ => []
  | fuel + 1, n =>
    if n = 0 then [] else natDigitsAux fuel (n / 10) ++ [digitChar (n % 10)]

/-- Rust `format!("{}", n)` for a non-negative integer. -/
def natToStr (n : Nat) : Str := if n = 0 then ['0'] else natDigitsAux n n

/-- Numeric value of one digit character (inverse of `digitChar`). -/
def digitVal (c : Char) : Nat :=
  if c = '0' then 0 else if c = '1' then 1 else if c = '2' then 2
  else if c = '3' then 3 else if c = '4' then 4 else if c = '5' then 5
  else if c = '6' then 6 else if c = '7' then 7 else if c = '8' then 8
  else 9

/-- Value of a digit string (inverse of `natDigitsAux`). -/
def digitsVal (l : Str) : Nat := l.foldl (fun acc c => acc * 10 + digitVal c) 0

/-- `get_file_name_without_count` (main.rs 212-224): strip a trailing
`(<digits>)` from the file stem, trim, and re-attach the extension.
The Rust code unwraps `file_stem()`; the impossible `none` case is
modelled as the empty name. -/
def get_file_name_without_count (file_path : Str) : Str :=
  match fileStem file_path with
  | none => []
  | some stem =>
    let result := stripStem stem
    match extensionOf file_path with
    | some ext => trim result ++ '.' :: ext
    | none => trim result

/-- `set_file_name_count` (main.rs 227-239): `format!("{}({}).{}", stem,
count, ext)`, or without the extension part when there is none. -/
def set_file_name_count (file_name : Str) (count : Nat) : Str :=
  match fileStem file_name with
  | none => []
  | some stem =>
    match extensionOf file_name with
    | some ext => stem ++ '(' :: natToStr count ++ ')' :: '.' :: ext
    | none => stem ++ '(' :: natToStr count ++ [')']

/-- The `track_name` fallback of `get_media_file_info` (main.rs 108-113):
stem of the count-stripped file name, trimmed. -/
def fallbackTrackName (file_path : Str) : Option Str :=
  (fileStem (get_file_name_without_count file_path)).map trim

/-- Rust `str::to_lowercase`, modelled per character. -/
def lowerStr (s : Str) : Str := s.map Char.toLower

/-- The recognized audio extensions of `main` (main.rs 359-362). -/
def recognizedExtensions : List Str :=
  ["wav".toList, "mp3".toList, "flac".toList, "ncm".toList]

/-- `MediaFileInfo` (main.rs 39-47).  `file_path` is modelled by the final
path segment; `duration` is in milliseconds. -/
structure MediaFileInfo where
  file_path : Str
  music_id : Option Nat
  album : Option Str
  track_name : Str
  bitrate : Nat
  duration : Nat
deriving DecidableEq

/-- `MediaFileInfo::better_than` (main.rs 50-53). -/
def MediaFileInfo.better_than (self other : MediaFileInfo) : Bool :=
  decide (other.bitrate < self.bitrate) ||
    (decide (other.bitrate = self.bitrate) && decide (other.duration < self.duration))

/-- `NeteaseKey` (main.rs 59-61). -/
structure NeteaseKey where
  music_id : Nat
deriving DecidableEq

/-- The identifier map of the Identity Resolver: `HashMap<u64,
MediaFileInfo>`, modelled by its lookup function. -/
abbrev IdMap := Nat → Option MediaFileInfo

/-- The title map of the Heuristic Resolver: `HashMap<String,
Vec<MediaFileInfo>>`, modelled by its lookup function (a missing key
reads as the empty bucket, matching `entry().or_default()`). -/
abbrev TitleMap := Str → List MediaFileInfo

/-- `update_media_info` (main.rs 176-209), after metadata extraction
(extraction itself is modelled by `get_media_file_info` below; this
function receives the extracted record). -/
def update_media_info (id_map : IdMap) (without_id_list : List MediaFileInfo)
    (file_info : MediaFileInfo) : IdMap × List MediaFileInfo :=
  match file_info.music_id with
  | some music_id =>
    match id_map music_id with
    | some old_file_info =>
      if file_info.better_than old_file_info then
        (fun k => if k = music_id then some file_info else id_map k, without_id_list)
      else
        (id_map, without_id_list)
    | none =>
      (fun k => if k = music_id then some file_info else id_map k, without_id_list)
  | none => (id_map, without_id_list ++ [file_info])

/-- The per-entry similarity test inside `replace_media_info`
(main.rs 310-313): equal albums (including both absent), or at least one
album absent and a duration gap strictly below 1500 ms. -/
def isSimilar (old_media_info media_info : MediaFileInfo) : Bool :=
  decide (old_media_info.album = media_info.album) ||
    ((decide (old_media_info.album = none) || decide (media_info.album = none)) &&
      decide (absDiff old_media_info.duration media_info.duration < 1500))

/-- The scan loop of `replace_media_info` (main.rs 304-323): `similar_pos`
is overwritten at every match, so the surviving position is the LAST
matching one; the matched entry is returned with its index. -/
def lastSimilar (media_info : MediaFileInfo) :
    List MediaFileInfo → Option (Nat × MediaFileInfo)
  | [] => none
  | old :: rest =>
    match lastSimilar media_info rest with
    | some (pos, e) => some (pos + 1, e)
    | none => if isSimilar old media_info then some (0, old) else none

/-- `TrackNameMap::add_media_info` (main.rs 282-286). -/
def add_media_info (map : TitleMap) (media_info : MediaFileInfo) : TitleMap :=
  fun k => if k = media_info.track_name then map k ++ [media_info] else map k

/-- `TrackNameMap::replace_media_info` (main.rs 301-335): find the last
similar bucket entry; replace it when the incoming record is better,
discard the incoming record otherwise; append when nothing matches. -/
def replace_media_info (map : TitleMap) (media_info : MediaFileInfo) : TitleMap :=
  let inner_vec := map media_info.track_name
  let new_vec :=
    match lastSimilar media_info inner_vec with
    | some (pos, similar_media_info) =>
      if media_info.better_than similar_media_info then
        inner_vec.eraseIdx pos ++ [media_info]
      else inner_vec
    | none => inner_vec ++ [media_info]
  fun k => if k = media_info.track_name then new_vec else map k

/-- The empty title map. -/
def emptyTitleMap : TitleMap := fun _ => []

/-- Drop a fixed leading string, `str::strip_prefix` style: `some` of the
remainder when `h` heads `s`. -/
def dropHeader : Str → Str → Option Str
  | [], s => some s
  | _ :: _, [] => none
  | c :: p, d :: s => if c = d then dropHeader p s else none

/-- The marker `"163 key(Don't modify):"` (main.rs 96/133); the apostrophe
is spelled via its code point. -/
def key163Header : Str :=
  "163 key(Don".toList ++ Char.ofNat 39 :: "t modify):".toList

/-- The search for the embedded key among tag items (main.rs 92-97). -/
def find163Key (items : List Str) : Option Str :=
  items.find? (fun it => (dropHeader key163Header it).isSome)

/-- The external crates used by `decrypt_163_key`: base64 decoding, the
AES-ECB decrypt loop (which always yields the accumulated plaintext,
possibly truncated at a cipher error, per the `break` at main.rs 155-157),
UTF-8 decoding and JSON parsing.  These are collaborators outside the
repository, left as parameters. -/
structure DecryptExternals where
  base64decode : Str → Except Str (List Nat)
  aesDecryptLoop : List Nat → List Nat
  utf8decode : List Nat → Except Str Str
  jsonParseNeteaseKey : Str → Except Str NeteaseKey

/-- `decrypt_163_key` (main.rs 132-173): strip the fixed marker, base64
decode, run the cipher loop, decode UTF-8, strip `"music:"`, parse JSON.
Every failure is returned as an error. -/
def decrypt_163_key (dx : DecryptExternals) (key : Str) : Except Str NeteaseKey :=
  match dropHeader key163Header key with
  | none => .error "no valid 163 key found".toList
  | some base64_key =>
    match dx.base64decode base64_key with
    | .error e => .error e
    | .ok encrypted_key =>
      let final_result := dx.aesDecryptLoop encrypted_key
      match dx.utf8decode final_result with
      | .error e => .error e
      | .ok decrypted_string =>
        match dropHeader "music:".toList decrypted_string with
        | some ncm_key_json => dx.jsonParseNeteaseKey ncm_key_json
        | none => .error "unsupported 163 key".toList

/-- The tag data read by lofty (main.rs 88-106): the text items (searched
for the embedded key), the album tag and the title tag. -/
structure TagData where
  items : List Str
  album : Option Str
  title : Option Str
deriving DecidableEq

/-- The audio properties read by lofty (main.rs 126-127). -/
structure AudioProperties where
  bitrate : Nat
  duration : Nat
deriving DecidableEq

/-- `get_media_file_info` (main.rs 64-129), from the point where the
container has been probed: `ncm_music_id` is the id recovered from an
`.ncm` container (none otherwise, and its recovery is non-fatal), `tag`
is the primary/first tag (`none` models the `"tags not found"` error).
Note line 117: a `decrypt_163_key` failure propagates through `?` as an
error for the whole file.  The `track_name.unwrap()` panic at line 125 is
modelled as an error value. -/
def get_media_file_info (dx : DecryptExternals) (file_path : Str)
    (ncm_music_id : Option Nat) (tag : Option TagData) (props : AudioProperties) :
    Except Str MediaFileInfo :=
  match tag with
  | none => .error "tags not found".toList
  | some tag =>
    let ncm_key := find163Key tag.items
    let track_name :=
      match tag.title with
      | some t => some t
      | none => fallbackTrackName file_path
    match ncm_key with
    | some key =>
      match decrypt_163_key dx key with
      | .error e => .error e
      | .ok ncm_metadata =>
        match track_name with
        | some tn =>
          .ok ⟨file_path, some ncm_metadata.music_id, tag.album, tn,
            props.bitrate, props.duration⟩
        | none => .error "panic: no track name".toList
    | none =>
      match track_name with
      | some tn =>
        .ok ⟨file_path, ncm_music_id, tag.album, tn, props.bitrate, props.duration⟩
      | none => .error "panic: no track name".toList

/-- Candidate destination names probed by `write_out_media_file`: the
canonical name first, then `stem(n).ext` for `n = 1, 2, …`. -/
def candidateName (filename : Str) : Nat → Str
  | 0 => filename
  | n + 1 => set_file_name_count filename (n + 1)

/-- The `while output_filename.exists()` loop of `write_out_media_file`
(main.rs 255-260).  `fs` is the set of names already present in the
output directory.  The Rust loop has no bound; the fuel argument only
serves structural recursion, and `fs.length + 2` probes are shown
sufficient below. -/
def probeLoop (fs : List Str) (filename : Str) : Nat → Nat → Str
  | count, 0 => candidateName filename count
  | count, fuel + 1 =>
    if candidateName filename count ∈ fs then probeLoop fs filename (count + 1) fuel
    else candidateName filename count

/-- One iteration of `write_out_media_file` (main.rs 250-272): pick the
first free candidate name and copy (the copy materializes the name unless
`dry_run`).  Returns the updated directory contents and the chosen name. -/
def write_out_step (fs : List Str) (dry_run : Bool) (file_info : MediaFileInfo) :
    List Str × Str :=
  let filename := get_file_name_without_count file_info.file_path
  let target := probeLoop fs filename 0 (fs.length + 2)
  ((if dry_run then fs else target :: fs), target)

/-- `write_out_media_file` (main.rs 242-273) over the survivors (the
flat-mapped title map values, in some order), threading the directory
contents; also returns the chosen destination names in order. -/
def write_out_media_file (infos : List MediaFileInfo) (fs0 : List Str)
    (dry_run : Bool) : List Str × List Str :=
  infos.foldl
    (fun acc info =>
      let r := write_out_step acc.1 dry_run info
      (r.1, acc.2 ++ [r.2]))
    (fs0, [])

/-! ### Concrete inputs used by witnesses and counterexamples -/

/-- Two records with equal title, both albums absent, durations 6000 ms
apart (the Scenario C input of the spec). -/
def exC1a : MediaFileInfo := ⟨"a.mp3".toList, none, none, "Song".toList, 0, 200000⟩

/-- See `exC1a`. -/
def exC1b : MediaFileInfo := ⟨"b.mp3".toList, none, none, "Song".toList, 0, 206000⟩

/-- External decoders for which base64 decoding fails (as the real base64
crate does on the non-alphabet payload `"!!!!"`). -/
def exBadExternals : DecryptExternals :=
  ⟨fun _ => .error "invalid base64".toList, fun b => b,
    fun _ => .error "invalid utf8".toList, fun _ => .error "invalid json".toList⟩

/-- A tag carrying an embedded 163 key whose payload `"!!!!"` is not valid
base64. -/
def exBadTag : TagData :=
  ⟨[key163Header ++ "!!!!".toList], some "Album".toList, some "Song".toList⟩

/-- Audio properties used by concrete extraction inputs. -/
def exProps : AudioProperties := ⟨320, 200000⟩

/-- A record with album `A`, title `Song`. -/
def exSongA : MediaFileInfo :=
  ⟨"a.mp3".toList, none, some "A".toList, "Song".toList, 128, 200000⟩

/-- A record with album `B`, title `Song`. -/
def exSongB : MediaFileInfo :=
  ⟨"b.mp3".toList, none, some "B".toList, "Song".toList, 128, 200000⟩

/-- A title map whose `Song` bucket holds `exSongA` only. -/
def exMapC4 : TitleMap := fun k => if k = "Song".toList then [exSongA] else []

/-- A record without album metadata. -/
def exNoAlb1 : MediaFileInfo :=
  ⟨"a.mp3".toList, none, none, "Song".toList, 128, 200000⟩

/-- A second record without album metadata, 100 ms longer. -/
def exNoAlb2 : MediaFileInfo :=
  ⟨"b.mp3".toList, none, none, "Song".toList, 128, 200100⟩

/-- A title map whose `Song` bucket holds the two album-less records. -/
def exMapC8 : TitleMap := fun k => if k = "Song".toList then [exNoAlb1, exNoAlb2] else []

/-- An incoming record similar to both entries of `exMapC8`. -/
def exIncoming : MediaFileInfo :=
  ⟨"c.mp3".toList, none, none, "Song".toList, 320, 200050⟩

/-- A 128 kbps record with `music_id` 42. -/
def exId128 : MediaFileInfo :=
  ⟨"a.mp3".toList, some 42, none, "Song".toList, 128, 200000⟩

/-- A 320 kbps record with `music_id` 42 (Scenario A of the spec). -/
def exId320 : MediaFileInfo :=
  ⟨"b.mp3".toList, some 42, none, "Song".toList, 320, 200000⟩

/-- The empty identifier map. -/
def emptyIdMap : IdMap := fun _ => none

/-- Three survivors whose canonical output name is `Song.mp3` in every
case. -/
def exSurvivors : List MediaFileInfo :=
  [⟨"Song.mp3".toList, none, none, "Song".toList, 128, 200000⟩,
   ⟨"Song(3).mp3".toList, none, none, "Song".toList, 320, 200000⟩,
   ⟨"Song.mp3".toList, some 42, some "Album".toList, "Song".toList, 320, 201000⟩]

/-! ### Lemmas on the stem/extension split -/

theorem splitLastDot_none_of_no_dot :
    ∀ l : Str, ('.' : Char) ∉ l → splitLastDot l = none := by
  intro l h
  induction l with
  | nil => rfl
  | cons c cs ih =>
    simp only [List.mem_cons, not_or] at h
    obtain ⟨hc, hcs⟩ := h
    simp [splitLastDot, ih hcs, Ne.symm hc]

theorem no_dot_of_splitLastDot_none :
    ∀ l : Str, splitLastDot l = none → ('.' : Char) ∉ l := by
  intro l h
  induction l with
  | nil => simp
  | cons c cs ih =>
    rw [splitLastDot] at h
    cases hcs : splitLastDot cs with
    | some p => rw [hcs] at h; cases h
    | none =>
      rw [hcs] at h
      by_cases hc : c = '.'
      · rw [if_pos hc] at h; cases h
      · simp [Ne.symm hc, ih hcs]

theorem splitLastDot_some :
    ∀ l a b, splitLastDot l = some (a, b) → l = a ++ '.' :: b ∧ ('.' : Char) ∉ b := by
  intro l
  induction l with
  | nil => intro a b h; cases h
  | cons c cs ih =>
    intro a b h
    rw [splitLastDot] at h
    cases hcs : splitLastDot cs with
    | some p =>
      obtain ⟨a', b'⟩ := p
      rw [hcs] at h
      simp only [Option.some.injEq, Prod.mk.injEq] at h
      obtain ⟨h1, h2⟩ := h
      obtain ⟨hcs1, hcs2⟩ := ih a' b' hcs
      subst h2
      rw [← h1]
      exact ⟨by simp [hcs1], hcs2⟩
    | none =>
      rw [hcs] at h
      by_cases hc : c = '.'
      · rw [if_pos hc] at h
        simp only [Option.some.injEq, Prod.mk.injEq] at h
        obtain ⟨h1, h2⟩ := h
        subst h1
        subst h2
        subst hc
        exact ⟨rfl, no_dot_of_splitLastDot_none cs hcs⟩
      · rw [if_neg hc] at h; cases h

theorem splitLastDot_append (b : Str) (hb : ('.' : Char) ∉ b) :
    ∀ a, splitLastDot (a ++ '.' :: b) = some (a, b) := by
  intro a
  induction a with
  | nil => simp [splitLastDot, splitLastDot_none_of_no_dot b hb]
  | cons x a' ih => simp [splitLastDot, ih]

theorem fileStemExt_snd_none (f : Str) (h : (fileStemExt f).2 = none) :
    (fileStemExt f).1 = f := by
  unfold fileStemExt at h ⊢
  by_cases hdd : f = ['.', '.']
  · simp [hdd]
  · rw [if_neg hdd] at h ⊢
    cases f with
    | nil => rfl
    | cons c cs =>
      cases hcs : splitLastDot cs with
      | none => simp [hcs]
      | some p =>
        obtain ⟨a, b⟩ := p
        simp [hcs] at h

theorem fileStemExt_snd_some (f e : Str) (h : (fileStemExt f).2 = some e) :
    f = (fileStemExt f).1 ++ '.' :: e ∧ ('.' : Char) ∉ e := by
  unfold fileStemExt at h ⊢
  by_cases hdd : f = ['.', '.']
  · rw [if_pos hdd] at h; cases h
  · rw [if_neg hdd] at h ⊢
    cases f with
    | nil => simp at h
    | cons c cs =>
      cases hcs : splitLastDot cs with
      | none => simp [hcs] at h
      | some p =>
        obtain ⟨a, b⟩ := p
        simp only [hcs] at h ⊢
        simp only [Option.some.injEq] at h
        subst h
        obtain ⟨hcs1, hcs2⟩ := splitLastDot_some cs a b hcs
        exact ⟨by simp [hcs1], hcs2⟩

theorem fileStemExt_append (t e : Str) (ht : t ≠ []) (he : ('.' : Char) ∉ e)
    (hne : t ++ '.' :: e ≠ ['.', '.']) : fileStemExt (t ++ '.' :: e) = (t, some e) := by
  obtain ⟨c, t', rfl⟩ : ∃ c t', t = c :: t' := by
    cases t with
    | nil => exact absurd rfl ht
    | cons c t' => exact ⟨c, t', rfl⟩
  unfold fileStemExt
  rw [if_neg hne]
  simp only [List.cons_append]
  rw [splitLastDot_append e he t']

/-! ### Lemmas on `trim` -/

theorem dropWhile_head_false {p : Char → Bool} :
    ∀ {l : Str} {c t}, l.dropWhile p = c :: t → p c = false := by
  intro l
  induction l with
  | nil => intro c t h; cases h
  | cons a l ih =>
    intro c t h
    by_cases ha : p a
    · rw [List.dropWhile_cons, if_pos ha] at h
      exact ih h
    · rw [List.dropWhile_cons, if_neg ha] at h
      injection h with h1 _
      subst h1
      simpa using ha

theorem trim_idem (s : Str) : trim (trim s) = trim s := by
  unfold trim
  have hdrop :
      (List.rdropWhile Char.isWhitespace (s.dropWhile Char.isWhitespace)).dropWhile
        Char.isWhitespace
      = List.rdropWhile Char.isWhitespace (s.dropWhile Char.isWhitespace) := by
    cases htr : List.rdropWhile Char.isWhitespace (s.dropWhile Char.isWhitespace) with
    | nil => rfl
    | cons c w =>
      obtain ⟨t, ht⟩ := (htr ▸ List.rdropWhile_prefix Char.isWhitespace
        (s.dropWhile Char.isWhitespace) : (c :: w) <+: s.dropWhile Char.isWhitespace)
      have hc : Char.isWhitespace c = false :=
        dropWhile_head_false (l := s) (by rw [← ht]; rfl)
      rw [List.dropWhile_cons, if_neg (by simp [hc])]
  rw [hdrop, List.rdropWhile_idempotent]

theorem trim_ne_nil {c : Char} (t : Str) (h : Char.isWhitespace c = false) :
    trim (c :: t) ≠ [] := by
  unfold trim
  rw [List.dropWhile_cons, if_neg (by simp [h])]
  intro hnil
  rw [List.rdropWhile_eq_nil_iff] at hnil
  have := hnil c (by simp)
  rw [h] at this
  cases this

theorem trim_of_trim_eq {t s : Str} (h : t = trim s) : trim t = t := by
  subst h; exact trim_idem s

/-! ### Lemmas on decimal strings -/

theorem digitVal_digitChar {d : Nat} (h : d < 10) : digitVal (digitChar d) = d := by
  interval_cases d <;> decide

theorem digitChar_ne_rparen (d : Nat) : digitChar d ≠ ')' := by
  unfold digitChar
  repeat' split
  all_goals decide

theorem natDigitsAux_zero (fuel : Nat) : natDigitsAux fuel 0 = [] := by
  cases fuel <;> simp [natDigitsAux]

theorem digitsVal_append_digit (l : Str) (c : Char) :
    digitsVal (l ++ [c]) = digitsVal l * 10 + digitVal c := by
  simp [digitsVal, List.foldl_append]

theorem natDigitsAux_val :
    ∀ fuel n, n ≤ fuel → digitsVal (natDigitsAux fuel n) = n := by
  intro fuel
  induction fuel with
  | zero => intro n hn; interval_cases n; simp [natDigitsAux, digitsVal]
  | succ fuel ih =>
    intro n hn
    by_cases h0 : n = 0
    · simp [h0, natDigitsAux_zero, digitsVal]
    · rw [natDigitsAux, if_neg h0, digitsVal_append_digit]
      have hdiv : n / 10 ≤ fuel :=
        Nat.le_of_lt_succ (Nat.lt_of_lt_of_le (Nat.div_lt_self (Nat.pos_of_ne_zero h0) (by norm_num)) hn)
      rw [ih (n / 10) hdiv, digitVal_digitChar (Nat.mod_lt n (by norm_num))]
      have := Nat.div_add_mod n 10
      omega

theorem natToStr_inj : ∀ {m n : Nat}, natToStr m = natToStr n → m = n := by
  intro m n h
  unfold natToStr at h
  by_cases hm : m = 0 <;> by_cases hn : n = 0
  · omega
  · rw [if_pos hm, if_neg hn] at h
    have := natDigitsAux_val n n le_rfl
    rw [← h] at this
    simp [digitsVal, digitVal] at this
    omega
  · rw [if_neg hm, if_pos hn] at h
    have := natDigitsAux_val m m le_rfl
    rw [h] at this
    simp [digitsVal, digitVal] at this
    omega
  · rw [if_neg hm, if_neg hn] at h
    have h1 := natDigitsAux_val m m le_rfl
    have h2 := natDigitsAux_val n n le_rfl
    rw [h] at h1
    omega

theorem natDigitsAux_no_rparen :
    ∀ fuel n c, c ∈ natDigitsAux fuel n → c ≠ ')' := by
  intro fuel
  induction fuel with
  | zero => intro n c h; simp [natDigitsAux] at h
  | succ fuel ih =>
    intro n c h
    by_cases h0 : n = 0
    · rw [h0, natDigitsAux_zero] at h; cases h
    · rw [natDigitsAux, if_neg h0] at h
      rcases List.mem_append.mp h with h | h
      · exact ih _ c h
      · rw [List.mem_singleton] at h
        subst h
        exact digitChar_ne_rparen _

theorem natToStr_no_rparen (n : Nat) {c : Char} (h : c ∈ natToStr n) : c ≠ ')' := by
  unfold natToStr at h
  by_cases h0 : n = 0
  · rw [if_pos h0, List.mem_singleton] at h
    subst h; decide
  · rw [if_neg h0] at h
    exact natDigitsAux_no_rparen n n c h

/-- Cancellation around the first `)` when neither prefix contains one. -/
theorem no_rparen_append_cancel :
    ∀ (a b r r' : Str), (∀ c ∈ a, c ≠ ')') → (∀ c ∈ b, c ≠ ')') →
      a ++ ')' :: r = b ++ ')' :: r' → a = b := by
  intro a
  induction a with
  | nil =>
    intro b r r' _ hb h
    cases b with
    | nil => rfl
    | cons y b' =>
      rw [List.nil_append, List.cons_append] at h
      injection h with h1 _
      exact absurd h1.symm (hb y (by simp))
  | cons x a' ih =>
    intro b r r' ha hb h
    cases b with
    | nil =>
      rw [List.nil_append, List.cons_append] at h
      injection h with h1 _
      exact absurd h1 (ha x (by simp))
    | cons y b' =>
      rw [List.cons_append, List.cons_append] at h
      injection h with h1 h2
      subst h1
      rw [ih b' r r' (fun c hc => ha c (by simp [hc])) (fun c hc => hb c (by simp [hc])) h2]

/-! ### Decomposition of a name into stem and extension -/

theorem fileStem_spec {f st : Str} (h : fileStem f = some st) :
    ¬(f = [] ∨ f = ['.'] ∨ f = ['.', '.']) ∧ st = (fileStemExt f).1 := by
  unfold fileStem at h
  by_cases hg : f = [] ∨ f = ['.'] ∨ f = ['.', '.']
  · rw [if_pos hg] at h; cases h
  · rw [if_neg hg] at h
    injection h with h
    exact ⟨hg, h.symm⟩

theorem extensionOf_spec {f e : Str} (h : extensionOf f = some e) :
    (fileStemExt f).2 = some e := by
  unfold extensionOf at h
  by_cases hg : f = [] ∨ f = ['.'] ∨ f = ['.', '.']
  · rw [if_pos hg] at h; cases h
  · rwa [if_neg hg] at h

theorem extensionOf_no_dot {f e : Str} (h : extensionOf f = some e) :
    ('.' : Char) ∉ e :=
  (fileStemExt_snd_some f e (extensionOf_spec h)).2

/-- A name with a stem and an extension is literally `stem ++ "." ++ ext`. -/
theorem name_decomp {f st e : Str} (hst : fileStem f = some st)
    (he : extensionOf f = some e) : f = st ++ '.' :: e := by
  obtain ⟨_, hst2⟩ := fileStem_spec hst
  rw [hst2]
  exact (fileStemExt_snd_some f e (extensionOf_spec he)).1

/-- A name with a stem but no extension IS its stem. -/
theorem name_stem_eq {f st : Str} (hst : fileStem f = some st)
    (he : extensionOf f = none) : st = f := by
  obtain ⟨hg, hst2⟩ := fileStem_spec hst
  unfold extensionOf at he
  rw [if_neg hg] at he
  rw [hst2]
  exact fileStemExt_snd_none f he

/-- `fileStem` and `extensionOf` of a well-formed `stem ++ "." ++ ext`
name recover the parts. -/
theorem fileStem_extensionOf_of_append {t e : Str} (ht : t ≠ [])
    (he : ('.' : Char) ∉ e) (hne : t ++ '.' :: e ≠ ['.', '.']) :
    fileStem (t ++ '.' :: e) = some t ∧ extensionOf (t ++ '.' :: e) = some e := by
  have hguard : ¬(t ++ '.' :: e = [] ∨ t ++ '.' :: e = ['.'] ∨ t ++ '.' :: e = ['.', '.']) := by
    push_neg
    refine ⟨by simp, ?_, hne⟩
    intro hh
    obtain ⟨c, t', rfl⟩ : ∃ c t', t = c :: t' := by
      cases t with
      | nil => exact absurd rfl ht
      | cons c t' => exact ⟨c, t', rfl⟩
    have := congrArg List.length hh
    simp [List.length_append] at this
  have hsplit := fileStemExt_append t e ht he hne
  unfold fileStem extensionOf
  rw [if_neg hguard, if_neg hguard, hsplit]
  exact ⟨rfl, rfl⟩

/-! ### Injectivity of the probed candidate names -/

theorem set_count_ext_some {filename st e : Str} (hst : fileStem filename = some st)
    (he : extensionOf filename = some e) (n : Nat) :
    set_file_name_count filename n = st ++ '(' :: natToStr n ++ ')' :: '.' :: e := by
  unfold set_file_name_count
  rw [hst, he]

theorem set_count_ext_none {filename st : Str} (hst : fileStem filename = some st)
    (he : extensionOf filename = none) (n : Nat) :
    set_file_name_count filename n = st ++ '(' :: natToStr n ++ [')'] := by
  unfold set_file_name_count
  rw [hst, he]

theorem candidateName_inj {filename st : Str} (hst : fileStem filename = some st) :
    Function.Injective (candidateName filename) := by
  have base : ∀ m n : Nat,
      set_file_name_count filename (m + 1) = set_file_name_count filename (n + 1) →
      m = n := by
    intro m n h
    cases he : extensionOf filename with
    | some e =>
      rw [set_count_ext_some hst he, set_count_ext_some hst he,
        List.append_assoc, List.append_assoc] at h
      have h2 := List.append_cancel_left h
      rw [List.cons_append, List.cons_append] at h2
      injection h2 with _ h3
      have h4 := no_rparen_append_cancel _ _ _ _
        (fun c hc => natToStr_no_rparen _ hc) (fun c hc => natToStr_no_rparen _ hc) h3
      have := natToStr_inj h4
      omega
    | none =>
      rw [set_count_ext_none hst he, set_count_ext_none hst he,
        List.append_assoc, List.append_assoc] at h
      have h2 := List.append_cancel_left h
      rw [List.cons_append, List.cons_append] at h2
      injection h2 with _ h3
      have h4 := no_rparen_append_cancel _ _ [] []
        (fun c hc => natToStr_no_rparen _ hc) (fun c hc => natToStr_no_rparen _ hc) h3
      have := natToStr_inj h4
      omega
  have zero_ne : ∀ n : Nat, filename ≠ set_file_name_count filename (n + 1) := by
    intro n h
    cases he : extensionOf filename with
    | some e =>
      rw [set_count_ext_some hst he, List.append_assoc] at h
      rw [name_decomp hst he] at h
      have h2 := List.append_cancel_left h
      rw [List.cons_append] at h2
      injection h2 with h3 _
      cases h3
    | none =>
      rw [set_count_ext_none hst he] at h
      rw [← name_stem_eq hst he] at h
      have := congrArg List.length h
      simp [List.length_append] at this
  intro m n h
  match m, n with
  | 0, 0 => rfl
  | 0, n + 1 => exact absurd h (zero_ne n)
  | m + 1, 0 => exact absurd h.symm (zero_ne m)
  | m + 1, n + 1 => simpa using base m n h

/-! ### The probe loop of the Output Materializer -/

theorem probeLoop_found (fs : List Str) (filename : Str) :
    ∀ fuel count, (∃ k, k < fuel ∧ candidateName filename (count + k) ∉ fs) →
      ∃ k, k < fuel ∧ probeLoop fs filename count fuel = candidateName filename (count + k)
        ∧ candidateName filename (count + k) ∉ fs
        ∧ ∀ j, j < k → candidateName filename (count + j) ∈ fs := by
  intro fuel
  induction fuel with
  | zero =>
    rintro count ⟨k, hk, _⟩
    omega
  | succ fuel ih =>
    rintro count ⟨k, hk, hfree⟩
    by_cases hmem : candidateName filename count ∈ fs
    · have hk0 : k ≠ 0 := by
        rintro rfl
        exact hfree (by simpa using hmem)
      obtain ⟨k', rfl⟩ : ∃ k', k = k' + 1 := ⟨k - 1, by omega⟩
      have hshift : count + (k' + 1) = count + 1 + k' := by omega
      obtain ⟨k2, hk2, heq, hfree2, hprev⟩ :=
        ih (count + 1) ⟨k', by omega, by rw [← hshift]; exact hfree⟩
      refine ⟨k2 + 1, by omega, ?_, ?_, ?_⟩
      · rw [probeLoop, if_pos hmem, heq]
        congr 1
        omega
      · have : count + (k2 + 1) = count + 1 + k2 := by omega
        rw [this]
        exact hfree2
      · intro j hj
        cases j with
        | zero => simpa using hmem
        | succ j' =>
          have : count + (j' + 1) = count + 1 + j' := by omega
          rw [this]
          exact hprev j' (by omega)
    · exact ⟨0, by omega, by rw [probeLoop, if_neg hmem]; simp, by simpa using hmem, by omega⟩

theorem exists_free_candidate (fs : List Str) {filename st : Str}
    (hst : fileStem filename = some st) :
    ∃ k, k < fs.length + 2 ∧ candidateName filename k ∉ fs := by
  by_contra hall
  push_neg at hall
  have hsub : (Finset.range (fs.length + 2)).image (candidateName filename) ⊆ fs.toFinset := by
    intro x hx
    obtain ⟨k, hk, rfl⟩ := Finset.mem_image.mp hx
    exact List.mem_toFinset.mpr (hall k (Finset.mem_range.mp hk))
  have hcard := Finset.card_le_card hsub
  rw [Finset.card_image_of_injective _ (candidateName_inj hst), Finset.card_range] at hcard
  have := fs.toFinset_card_le
  omega

/-- The selected destination of one `write_out_media_file` iteration: it is
never an existing name, it is the canonical name when that is free, and
otherwise the first free `stem(n).ext` in increasing order of `n`. -/
theorem write_out_step_spec (fs : List Str) (dry : Bool) (info : MediaFileInfo)
    {st : Str} (hst : fileStem (get_file_name_without_count info.file_path) = some st) :
    ((write_out_step fs dry info).2 ∉ fs)
    ∧ (get_file_name_without_count info.file_path ∉ fs →
        (write_out_step fs dry info).2 = get_file_name_without_count info.file_path)
    ∧ (get_file_name_without_count info.file_path ∈ fs →
        ∃ n, 1 ≤ n
          ∧ (write_out_step fs dry info).2
              = set_file_name_count (get_file_name_without_count info.file_path) n
          ∧ set_file_name_count (get_file_name_without_count info.file_path) n ∉ fs
          ∧ ∀ m, 1 ≤ m → m < n →
              set_file_name_count (get_file_name_without_count info.file_path) m ∈ fs) := by
  have htarget : (write_out_step fs dry info).2
      = probeLoop fs (get_file_name_without_count info.file_path) 0 (fs.length + 2) := rfl
  obtain ⟨k, hk, heq, hfree, hprev⟩ := probeLoop_found fs
    (get_file_name_without_count info.file_path) (fs.length + 2) 0
    (by
      obtain ⟨k, hk, hfree⟩ := exists_free_candidate fs hst
      exact ⟨k, hk, by simpa using hfree⟩)
  simp only [Nat.zero_add] at heq hfree hprev
  refine ⟨by rw [htarget, heq]; exact hfree, ?_, ?_⟩
  · intro hnot
    cases k with
    | zero => rw [htarget, heq]; rfl
    | succ k' => exact absurd (by simpa using hprev 0 (by omega)) hnot
  · intro hmem
    cases k with
    | zero => exact absurd (by simpa using hfree) (by simpa using hmem)
    | succ k' =>
      refine ⟨k' + 1, by omega, ?_, ?_, ?_⟩
      · rw [htarget, heq]; rfl
      · exact hfree
      · intro m h1 h2
        have := hprev m (by omega)
        obtain ⟨m', rfl⟩ : ∃ m', m = m' + 1 := ⟨m - 1, by omega⟩
        simpa using this

/-! ### Lemmas on the bucket scan of the Heuristic Resolver -/

theorem lastSimilar_none (m : MediaFileInfo) :
    ∀ l, lastSimilar m l = none → ∀ e ∈ l, isSimilar e m = false := by
  intro l
  induction l with
  | nil => intro _ e he; cases he
  | cons old rest ih =>
    intro h e he
    rw [lastSimilar] at h
    cases hrest : lastSimilar m rest with
    | some p => rw [hrest] at h; cases h
    | none =>
      rw [hrest] at h
      by_cases hsim : isSimilar old m
      · rw [if_pos hsim] at h; cases h
      · rcases List.mem_cons.mp he with rfl | hmem
        · simpa using hsim
        · exact ih hrest e hmem

theorem lastSimilar_some_spec (m : MediaFileInfo) :
    ∀ l i e, lastSimilar m l = some (i, e) →
      l[i]? = some e ∧ isSimilar e m = true
        ∧ ∀ j e2, i < j → l[j]? = some e2 → isSimilar e2 m = false := by
  intro l
  induction l with
  | nil => intro i e h; cases h
  | cons old rest ih =>
    intro i e h
    rw [lastSimilar] at h
    cases hrest : lastSimilar m rest with
    | some p =>
      obtain ⟨i', e'⟩ := p
      rw [hrest] at h
      simp only [Option.some.injEq, Prod.mk.injEq] at h
      obtain ⟨h1, h2⟩ := h
      subst h2
      obtain ⟨ha, hb, hc⟩ := ih i' e' hrest
      subst h1
      refine ⟨by simpa using ha, hb, ?_⟩
      intro j e2 hij hj
      obtain ⟨j', rfl⟩ : ∃ j', j = j' + 1 := ⟨j - 1, by omega⟩
      exact hc j' e2 (by omega) (by simpa using hj)
    | none =>
      rw [hrest] at h
      by_cases hsim : isSimilar old m
      · rw [if_pos hsim] at h
        simp only [Option.some.injEq, Prod.mk.injEq] at h
        obtain ⟨h1, h2⟩ := h
        subst h1
        subst h2
        refine ⟨by simp, hsim, ?_⟩
        intro j e2 hij hj
        obtain ⟨j', rfl⟩ : ∃ j', j = j' + 1 := ⟨j - 1, by omega⟩
        have hmem : e2 ∈ rest := by
          have := List.getElem?_eq_some_iff.mp (by simpa using hj)
          obtain ⟨hlt, hget⟩ := this
          exact hget ▸ List.getElem_mem hlt
        exact lastSimilar_none m rest hrest e2 hmem
      · rw [if_neg hsim] at h; cases h

theorem lastSimilar_isSome (m : MediaFileInfo) :
    ∀ l e2, e2 ∈ l → isSimilar e2 m = true → (lastSimilar m l).isSome = true := by
  intro l
  induction l with
  | nil => intro e2 h _; cases h
  | cons old rest ih =>
    intro e2 he2 hsim
    rw [lastSimilar]
    cases hrest : lastSimilar m rest with
    | some p => simp
    | none =>
      rcases List.mem_cons.mp he2 with rfl | hmem
      · rw [if_pos hsim]; simp
      · have := ih e2 hmem hsim
        rw [hrest] at this
        cases this

/-- Unfolding `replace_media_info` at its own bucket. -/
theorem replace_media_info_bucket (map : TitleMap) (m : MediaFileInfo) :
    replace_media_info map m m.track_name
      = match lastSimilar m (map m.track_name) with
        | some (pos, e) =>
          if m.better_than e then (map m.track_name).eraseIdx pos ++ [m]
          else map m.track_name
        | none => map m.track_name ++ [m] := by
  unfold replace_media_info
  simp

/-- `replace_media_info` leaves every other bucket unchanged. -/
theorem replace_media_info_frame (map : TitleMap) (m : MediaFileInfo)
    {k : Str} (hk : k ≠ m.track_name) :
    replace_media_info map m k = map k := by
  unfold replace_media_info
  simp [hk]

/-- A stem with no trailing `(<digits>)` suffix strips to itself. -/
theorem stripStem_of_none {t : Str} (h : stripParenCountRev t.reverse = none) :
    stripStem t = t := by
  unfold stripStem
  rw [h]

/-- `get_file_name_without_count` on a name with stem and extension. -/
theorem get_without_count_eq {f st e : Str} (hst : fileStem f = some st)
    (he : extensionOf f = some e) :
    get_file_name_without_count f = trim (stripStem st) ++ '.' :: e := by
  unfold get_file_name_without_count
  rw [hst, he]

/-! ### Claim theorems -/

/-- C7: `better_than` is a total, irreflexive boolean function of the two
records: it returns `true` exactly when the bitrate is strictly higher,
or the bitrates tie and the duration is strictly longer; on any record
paired with itself it returns `false`. -/
theorem claim_C7 (a b : MediaFileInfo) :
    (a.better_than b = true ↔
      (b.bitrate < a.bitrate ∨ (a.bitrate = b.bitrate ∧ b.duration < a.duration)))
    ∧ a.better_than a = false := by
  constructor
  · unfold MediaFileInfo.better_than
    rw [Bool.or_eq_true, Bool.and_eq_true]
    simp only [decide_eq_true_eq]
    constructor
    · rintro (h | ⟨hh1, hh2⟩)
      · exact Or.inl h
      · exact Or.inr ⟨hh1.symm, hh2⟩
    · rintro (h | ⟨hh1, hh2⟩)
      · exact Or.inl h
      · exact Or.inr ⟨hh1.symm, hh2⟩
  · unfold MediaFileInfo.better_than
    simp

/-- C3: processing two records with the same `music_id` through
`update_media_info` retains exactly the `better_than`-winner: strictly
higher bitrate wins, bitrate ties are broken by strictly longer duration,
and full ties keep the first-processed record. -/
theorem claim_C3 (map0 : IdMap) (m1 m2 : MediaFileInfo) (i : Nat)
    (h1 : m1.music_id = some i) (h2 : m2.music_id = some i) (h0 : map0 i = none) :
    ((update_media_info (update_media_info map0 [] m1).1
        (update_media_info map0 [] m1).2 m2).1 i
      = some (if m2.better_than m1 then m2 else m1))
    ∧ (m1.bitrate < m2.bitrate →
        (update_media_info (update_media_info map0 [] m1).1
          (update_media_info map0 [] m1).2 m2).1 i = some m2)
    ∧ (m2.bitrate < m1.bitrate →
        (update_media_info (update_media_info map0 [] m1).1
          (update_media_info map0 [] m1).2 m2).1 i = some m1)
    ∧ (m1.bitrate = m2.bitrate → m1.duration < m2.duration →
        (update_media_info (update_media_info map0 [] m1).1
          (update_media_info map0 [] m1).2 m2).1 i = some m2)
    ∧ (m1.bitrate = m2.bitrate → m2.duration < m1.duration →
        (update_media_info (update_media_info map0 [] m1).1
          (update_media_info map0 [] m1).2 m2).1 i = some m1)
    ∧ (m1.bitrate = m2.bitrate → m1.duration = m2.duration →
        (update_media_info (update_media_info map0 [] m1).1
          (update_media_info map0 [] m1).2 m2).1 i = some m1) := by
  have hmain : (update_media_info (update_media_info map0 [] m1).1
      (update_media_info map0 [] m1).2 m2).1 i
      = some (if m2.better_than m1 then m2 else m1) := by
    simp only [update_media_info, h1, h2, h0]
    by_cases hb : m2.better_than m1 <;> simp [hb]
  refine ⟨hmain, ?_, ?_, ?_, ?_, ?_⟩
  · intro hlt
    have hb : m2.better_than m1 = true := by
      simp [MediaFileInfo.better_than]
      omega
    rw [hmain]
    simp [hb]
  · intro hlt
    have hb : m2.better_than m1 = false := by
      simp [MediaFileInfo.better_than]
      omega
    rw [hmain]
    simp [hb]
  · intro hbeq hdur
    have hb : m2.better_than m1 = true := by
      simp [MediaFileInfo.better_than]
      omega
    rw [hmain]
    simp [hb]
  · intro hbeq hdur
    have hb : m2.better_than m1 = false := by
      simp [MediaFileInfo.better_than]
      omega
    rw [hmain]
    simp [hb]
  · intro hbeq hdur
    have hb : m2.better_than m1 = false := by
      simp [MediaFileInfo.better_than]
      omega
    rw [hmain]
    simp [hb]

/-- C3 witness: 128 kbps vs 320 kbps at equal duration — the resolver
keeps the 320 kbps record (Scenario A of the spec). -/
theorem claim_C3_witness :
    (update_media_info (update_media_info emptyIdMap [] exId128).1
      (update_media_info emptyIdMap [] exId128).2 exId320).1 42 = some exId320 :=
  (claim_C3 emptyIdMap exId128 exId320 42 rfl rfl rfl).2.1 (by decide)

/-- C4: two records with the same title whose albums are both present and
different are never considered similar, and inserting the second into a
bucket holding the first keeps both, whatever the durations. -/
theorem claim_C4 (map : TitleMap) (r1 r2 : MediaFileInfo) (a1 a2 : Str)
    (htn : r2.track_name = r1.track_name) (hb : map r1.track_name = [r1])
    (h1 : r1.album = some a1) (h2 : r2.album = some a2) (hne : a1 ≠ a2) :
    isSimilar r1 r2 = false ∧ replace_media_info map r2 r1.track_name = [r1, r2] := by
  have hsim : isSimilar r1 r2 = false := by
    unfold isSimilar
    simp [h1, h2, hne]
  refine ⟨hsim, ?_⟩
  rw [← htn, replace_media_info_bucket, htn, hb]
  simp [lastSimilar, hsim]

/-- C4 witness: same title, albums `A` and `B`, durations equal — both
records are kept. -/
theorem claim_C4_witness :
    replace_media_info exMapC4 exSongB "Song".toList = [exSongA, exSongB] :=
  (claim_C4 exMapC4 exSongA exSongB "A".toList "B".toList
    rfl (by decide) rfl rfl (by decide)).2

/-- C8: when the bucket scan of `replace_media_info` finds any similar
entry it reports one (`lastSimilar` is `some`), the reported entry is the
LAST similar one in bucket order (it is at its reported index, it is
similar, and no later entry is), and the bucket update removes at most
that single entry, appending the incoming record exactly when it is
better. -/
theorem claim_C8 (map : TitleMap) (m : MediaFileInfo) :
    (∀ e2 ∈ map m.track_name, isSimilar e2 m = true →
        (lastSimilar m (map m.track_name)).isSome = true)
    ∧ (∀ i e, lastSimilar m (map m.track_name) = some (i, e) →
        (map m.track_name)[i]? = some e
        ∧ isSimilar e m = true
        ∧ (∀ j e2, i < j → (map m.track_name)[j]? = some e2 → isSimilar e2 m = false)
        ∧ replace_media_info map m m.track_name
            = (if m.better_than e then (map m.track_name).eraseIdx i ++ [m]
               else map m.track_name)) := by
  constructor
  · intro e2 he2 hsim
    exact lastSimilar_isSome m _ e2 he2 hsim
  · intro i e h
    obtain ⟨ha, hb, hc⟩ := lastSimilar_some_spec m _ i e h
    refine ⟨ha, hb, hc, ?_⟩
    rw [replace_media_info_bucket, h]

/-- C8 witness: a bucket with two similar entries — the scan reports the
second (last) one, at index 1. -/
theorem claim_C8_witness :
    (exMapC8 exIncoming.track_name)[1]? = some exNoAlb2 :=
  ((claim_C8 exMapC8 exIncoming).2 1 exNoAlb2 (by decide)).1

/-- C10: `replace_media_info` touches only the incoming record's own
bucket; a matched-but-not-better incoming record leaves the whole map
unchanged, and otherwise the update is exactly the removal of the single
matched entry (when there is one) plus an append of the incoming record
at the end of its bucket. -/
theorem claim_C10 (map : TitleMap) (m : MediaFileInfo) :
    (∀ k, k ≠ m.track_name → replace_media_info map m k = map k)
    ∧ (lastSimilar m (map m.track_name) = none →
        replace_media_info map m m.track_name = map m.track_name ++ [m])
    ∧ (∀ i e, lastSimilar m (map m.track_name) = some (i, e) →
        (m.better_than e = false → replace_media_info map m = map)
        ∧ (m.better_than e = true →
            replace_media_info map m m.track_name
              = (map m.track_name).eraseIdx i ++ [m])) := by
  refine ⟨fun k hk => replace_media_info_frame map m hk, ?_, ?_⟩
  · intro h
    rw [replace_media_info_bucket, h]
  · intro i e h
    constructor
    · intro hbf
      funext k
      by_cases hk : k = m.track_name
      · subst hk
        rw [replace_media_info_bucket, h]
        simp [hbf]
      · exact replace_media_info_frame map m hk
    · intro hbt
      rw [replace_media_info_bucket, h]
      simp [hbt]

/-- C10 witness: inserting a record with a fresh title into the empty map
appends it to its (previously empty) bucket. -/
theorem claim_C10_witness :
    replace_media_info emptyTitleMap exNoAlb1 exNoAlb1.track_name = [exNoAlb1] :=
  (claim_C10 emptyTitleMap exNoAlb1).2.1 (by decide)

/-- C1 counterexample: on the spec's own Scenario C input — equal titles,
BOTH albums absent, durations 6000 ms apart — the code merges the pair
(the `old.album == new.album` test is satisfied by `None == None`), so
only one entry remains in the bucket instead of the claimed two. -/
theorem claim_C1_counterexample :
    exC1a.album = none ∧ exC1b.album = none
    ∧ absDiff exC1a.duration exC1b.duration = 6000
    ∧ replace_media_info (replace_media_info emptyTitleMap exC1a) exC1b
        "Song".toList = [exC1b] := by
  refine ⟨rfl, rfl, rfl, ?_⟩
  decide

/-- C1 (amended): the `< 1500 ms` duration window decides similarity only
when EXACTLY ONE of the two albums is absent: then a gap of 1500 ms or
more keeps both records as distinct bucket entries and a gap strictly
below 1500 ms merges them (the `better_than` winner surviving).  When
both albums are absent the records always merge, regardless of duration,
because `None == None` already satisfies the album-equality test. -/
theorem claim_C1 (map : TitleMap) (r1 r2 : MediaFileInfo)
    (htn : r2.track_name = r1.track_name) (hb : map r1.track_name = [r1])
    (halb : (r1.album = none ∧ r2.album ≠ none) ∨ (r1.album ≠ none ∧ r2.album = none)) :
    (1500 ≤ absDiff r1.duration r2.duration →
      replace_media_info map r2 r1.track_name = [r1, r2])
    ∧ (absDiff r1.duration r2.duration < 1500 →
      replace_media_info map r2 r1.track_name
        = if r2.better_than r1 then [r2] else [r1]) := by
  have halbne : decide (r1.album = r2.album) = false := by
    rcases halb with ⟨ha, hc⟩ | ⟨ha, hc⟩ <;> simp_all
    exact fun hh => hc hh.symm
  have hnull : (decide (r1.album = none) || decide (r2.album = none)) = true := by
    rcases halb with ⟨ha, _⟩ | ⟨_, hc⟩ <;> simp_all
  constructor
  · intro hd
    have hsim : isSimilar r1 r2 = false := by
      unfold isSimilar
      rw [halbne]
      have : decide (absDiff r1.duration r2.duration < 1500) = false := by
        simp
        omega
      rw [this]
      simp
    rw [← htn, replace_media_info_bucket, htn, hb]
    simp [lastSimilar, hsim]
  · intro hd
    have hsim : isSimilar r1 r2 = true := by
      unfold isSimilar
      rw [halbne, hnull]
      simp [hd]
    rw [← htn, replace_media_info_bucket, htn, hb]
    simp only [lastSimilar, hsim]
    by_cases hbt : r2.better_than r1 <;> simp [hbt, List.eraseIdx]

/-- C1 witness: album present on one side only, durations 6000 ms apart —
both records are kept as distinct entries. -/
theorem claim_C1_witness :
    replace_media_info exMapC4 exC1b "Song".toList = [exSongA, exC1b] :=
  (claim_C1 exMapC4 exSongA exC1b rfl (by decide)
    (Or.inr ⟨by decide, rfl⟩)).1 (by decide)

/-- C2 counterexample: a tag carrying an embedded 163 key whose payload is
not valid base64 — extraction of the file FAILS with the decode error
rather than succeeding with an absent `stable_id` (line 117 of main.rs
propagates the `decrypt_163_key` failure with `?`). -/
theorem claim_C2_counterexample :
    get_media_file_info exBadExternals "a.mp3".toList none (some exBadTag) exProps
      = .error "invalid base64".toList := by
  rfl

/-- C2 (amended): when a record carries an embedded 163 key and its
decryption or parsing fails, `get_media_file_info` returns that failure
as an error for the file — the file yields NO record at all (its caller
reports and skips it; the run continues), rather than a record with an
absent `stable_id`. -/
theorem claim_C2 (dx : DecryptExternals) (file_path : Str)
    (ncm_music_id : Option Nat) (tag : TagData) (props : AudioProperties)
    (key e : Str) (hkey : find163Key tag.items = some key)
    (herr : decrypt_163_key dx key = .error e) :
    get_media_file_info dx file_path ncm_music_id (some tag) props = .error e := by
  simp only [get_media_file_info, hkey, herr]

/-- C2 witness: the amended claim at the concrete bad-base64 input. -/
theorem claim_C2_witness :
    get_media_file_info exBadExternals "b.flac".toList (some 7) (some exBadTag) exProps
      = .error "invalid base64".toList :=
  claim_C2 exBadExternals "b.flac".toList (some 7) exBadTag exProps
    (key163Header ++ "!!!!".toList) "invalid base64".toList rfl rfl

/-- C5 counterexample, refuting both halves of the claim as stated "for
every filename".  Idempotence: stripping removes only ONE trailing
`(<digits>)` suffix per application, so `Song(1)(2).mp3` strips to
`Song(1).mp3`, and stripping again gives `Song.mp3`.  Round trip: for
`(1).mp3` the stripped stem is empty and the stripped name is `.mp3`,
whose own stem is `.mp3` with no extension (the Rust leading-dot rule),
so appending count 1 yields `.mp3(1)` — not the `stem(n).ext` form
`(1).mp3`. -/
theorem claim_C5_counterexample :
    (get_file_name_without_count "Song(1)(2).mp3".toList = "Song(1).mp3".toList
      ∧ get_file_name_without_count (get_file_name_without_count "Song(1)(2).mp3".toList)
          = "Song.mp3".toList
      ∧ "Song(1).mp3".toList ≠ "Song.mp3".toList)
    ∧ (fileStem "(1).mp3".toList = some "(1)".toList
      ∧ extensionOf "(1).mp3".toList = some "mp3".toList
      ∧ trim (stripStem "(1)".toList) = []
      ∧ get_file_name_without_count "(1).mp3".toList = ".mp3".toList
      ∧ set_file_name_count (get_file_name_without_count "(1).mp3".toList) 1
          = ".mp3(1)".toList
      ∧ set_file_name_count (get_file_name_without_count "(1).mp3".toList) 1
          ≠ trim (stripStem "(1)".toList) ++ '(' :: natToStr 1 ++ ')' :: '.' :: "mp3".toList) := by
  refine ⟨⟨?_, ?_, ?_⟩, ?_, ?_, ?_, ?_, ?_, ?_⟩ <;> decide

/-- C5 (amended): for a filename with a non-empty extension and a
non-empty stripped stem, stripping the disambiguation suffix and then
appending count `n` yields exactly `stem(n).ext` (for every `n ≥ 1`) —
names with an empty stripped stem genuinely fail the round trip, as the
counterexample shows on `(1).mp3`; and stripping — which removes at most
one trailing `(<digits>)` suffix per application — is idempotent exactly
on the names whose stripped stem does not itself still end in such a
suffix. -/
theorem claim_C5 (f st e : Str) (n : Nat)
    (hst : fileStem f = some st) (he : extensionOf f = some e) (hene : e ≠ [])
    (ht : trim (stripStem st) ≠ []) (_hn : 1 ≤ n) :
    set_file_name_count (get_file_name_without_count f) n
      = trim (stripStem st) ++ '(' :: natToStr n ++ ')' :: '.' :: e
    ∧ (stripParenCountRev (trim (stripStem st)).reverse = none →
        get_file_name_without_count (get_file_name_without_count f)
          = get_file_name_without_count f) := by
  have hdot : ('.' : Char) ∉ e := extensionOf_no_dot he
  have hg : get_file_name_without_count f = trim (stripStem st) ++ '.' :: e :=
    get_without_count_eq hst he
  have hne2 : trim (stripStem st) ++ '.' :: e ≠ ['.', '.'] := by
    intro hh
    have hlt := List.length_pos.mpr ht
    have hle := List.length_pos.mpr hene
    have := congrArg List.length hh
    simp [List.length_append] at this
    omega
  have hparts := fileStem_extensionOf_of_append ht hdot hne2
  constructor
  · rw [hg, set_count_ext_some hparts.1 hparts.2]
  · intro hstrip
    have hstem2 : stripStem (trim (stripStem st)) = trim (stripStem st) :=
      stripStem_of_none hstrip
    rw [hg]
    rw [get_without_count_eq hparts.1 hparts.2, hstem2, trim_idem]

/-- C5 witness: `Song(2).mp3` strips to `Song.mp3`; re-adding count 1
gives `Song(1).mp3`, and stripping is idempotent here. -/
theorem claim_C5_witness :
    set_file_name_count (get_file_name_without_count "Song(2).mp3".toList) 1
      = trim (stripStem "Song(2)".toList) ++ '(' :: natToStr 1 ++ ')' :: '.' :: "mp3".toList
    ∧ (stripParenCountRev (trim (stripStem "Song(2)".toList)).reverse = none →
        get_file_name_without_count (get_file_name_without_count "Song(2).mp3".toList)
          = get_file_name_without_count "Song(2).mp3".toList) :=
  claim_C5 "Song(2).mp3".toList "Song(2)".toList "mp3".toList 1
    (by decide) (by decide) (by decide) (by decide) (by decide)

/-- C6: the Output Materializer never targets an existing name — the
selected destination is the canonical (suffix-stripped) name when free,
else the first free `stem(n).ext` probed in increasing order of `n`; and
materializing three survivors with the same canonical name `Song.mp3`
into an empty directory in a non-preview run creates the three distinct
files `Song.mp3`, `Song(1).mp3`, `Song(2).mp3`. -/
theorem claim_C6 :
    (∀ (fs : List Str) (dry : Bool) (info : MediaFileInfo) (st : Str),
      fileStem (get_file_name_without_count info.file_path) = some st →
        ((write_out_step fs dry info).2 ∉ fs
        ∧ (get_file_name_without_count info.file_path ∉ fs →
            (write_out_step fs dry info).2 = get_file_name_without_count info.file_path)
        ∧ (get_file_name_without_count info.file_path ∈ fs →
            ∃ n, 1 ≤ n
              ∧ (write_out_step fs dry info).2
                  = set_file_name_count (get_file_name_without_count info.file_path) n
              ∧ set_file_name_count (get_file_name_without_count info.file_path) n ∉ fs
              ∧ ∀ m, 1 ≤ m → m < n →
                  set_file_name_count (get_file_name_without_count info.file_path) m ∈ fs)))
    ∧ (write_out_media_file exSurvivors [] false).2
        = ["Song.mp3".toList, "Song(1).mp3".toList, "Song(2).mp3".toList]
    ∧ (write_out_media_file exSurvivors [] false).1
        = ["Song(2).mp3".toList, "Song(1).mp3".toList, "Song.mp3".toList]
    ∧ "Song.mp3".toList ≠ "Song(1).mp3".toList
    ∧ "Song.mp3".toList ≠ "Song(2).mp3".toList
    ∧ "Song(1).mp3".toList ≠ "Song(2).mp3".toList := by
  refine ⟨fun fs dry info st hst => write_out_step_spec fs dry info hst, ?_, ?_, ?_, ?_, ?_⟩
    <;> decide

/-- C6 witness: with `Song.mp3` already present, the canonical name
collides and the selected destination is not an existing file. -/
theorem claim_C6_witness :
    (write_out_step ["Song.mp3".toList] false
      ⟨"Song.mp3".toList, none, none, "Song".toList, 128, 200000⟩).2
      ∉ ["Song.mp3".toList] :=
  (claim_C6.1 ["Song.mp3".toList] false
    ⟨"Song.mp3".toList, none, none, "Song".toList, 128, 200000⟩
    "Song".toList (by decide)).1

/-- A recognized extension is non-empty. -/
theorem accepted_ext_ne_nil {e : Str} (h : lowerStr e ∈ recognizedExtensions) :
    e ≠ [] := by
  intro h0
  subst h0
  exact absurd h (by decide)

/-- The track-name fallback is defined and non-empty for any name with a
non-empty extension. -/
theorem fallback_nonempty {f e : Str} (he : extensionOf f = some e) (hene : e ≠ []) :
    (fallbackTrackName f).isSome = true ∧ (fallbackTrackName f).getD [] ≠ [] := by
  obtain ⟨st, hst⟩ : ∃ st, fileStem f = some st := by
    unfold extensionOf at he
    unfold fileStem
    by_cases hgg : f = [] ∨ f = ['.'] ∨ f = ['.', '.']
    · rw [if_pos hgg] at he; cases he
    · rw [if_neg hgg]; exact ⟨_, rfl⟩
  have hdot : ('.' : Char) ∉ e := extensionOf_no_dot he
  have hg : get_file_name_without_count f = trim (stripStem st) ++ '.' :: e :=
    get_without_count_eq hst he
  by_cases htnil : trim (stripStem st) = []
  · rw [htnil, List.nil_append] at hg
    have hguard : ¬('.' :: e = [] ∨ '.' :: e = ['.'] ∨ '.' :: e = ['.', '.']) := by
      push_neg
      refine ⟨by simp, ?_, ?_⟩
      · intro hh
        injection hh with _ h2
        exact hene h2
      · intro hh
        injection hh with _ h2
        exact hdot (by rw [h2]; simp)
    have hstem : fileStem ('.' :: e) = some ('.' :: e) := by
      unfold fileStem
      rw [if_neg hguard]
      have hfse : fileStemExt ('.' :: e) = ('.' :: e, none) := by
        unfold fileStemExt
        rw [if_neg (fun hh => hguard (Or.inr (Or.inr hh)))]
        simp [splitLastDot_none_of_no_dot e hdot]
      rw [hfse]
    unfold fallbackTrackName
    rw [hg, hstem]
    refine ⟨rfl, ?_⟩
    simpa using trim_ne_nil e (by decide)
  · have hne2 : trim (stripStem st) ++ '.' :: e ≠ ['.', '.'] := by
      intro hh
      have hlt := List.length_pos.mpr htnil
      have hle := List.length_pos.mpr hene
      have := congrArg List.length hh
      simp [List.length_append] at this
      omega
    have hparts := fileStem_extensionOf_of_append htnil hdot hne2
    unfold fallbackTrackName
    rw [hg, hparts.1]
    refine ⟨rfl, ?_⟩
    simpa [trim_idem] using htnil

/-- C9: for every input accepted by the extractor (a name with a
recognized extension), the filename fallback — stem of the
count-stripped name, trimmed — always yields a non-empty `track_name`;
hence any record extracted from a file without a title tag has a
non-empty `track_name`. -/
theorem claim_C9 :
    (∀ f e : Str, extensionOf f = some e → lowerStr e ∈ recognizedExtensions →
      (fallbackTrackName f).isSome = true ∧ (fallbackTrackName f).getD [] ≠ [])
    ∧ (∀ (dx : DecryptExternals) (f : Str) (ncmId : Option Nat) (tag : TagData)
        (props : AudioProperties) (r : MediaFileInfo) (e : Str),
        tag.title = none → extensionOf f = some e →
        lowerStr e ∈ recognizedExtensions →
        get_media_file_info dx f ncmId (some tag) props = .ok r →
        r.track_name ≠ []) := by
  have h1 : ∀ f e : Str, extensionOf f = some e → lowerStr e ∈ recognizedExtensions →
      (fallbackTrackName f).isSome = true ∧ (fallbackTrackName f).getD [] ≠ [] :=
    fun f e he hacc => fallback_nonempty he (accepted_ext_ne_nil hacc)
  refine ⟨h1, ?_⟩
  intro dx f ncmId tag props r e htitle he hacc hok
  obtain ⟨hsome, hgetd⟩ := h1 f e he hacc
  obtain ⟨t, hft⟩ := Option.isSome_iff_exists.mp hsome
  have htne : t ≠ [] := by
    rw [hft] at hgetd
    simpa using hgetd
  cases hfind : find163Key tag.items with
  | none =>
    simp only [get_media_file_info, htitle, hfind, hft, Except.ok.injEq] at hok
    rw [← hok]
    exact htne
  | some key =>
    cases hdec : decrypt_163_key dx key with
    | error err =>
      simp only [get_media_file_info, htitle, hfind, hft, hdec] at hok
      cases hok
    | ok nk =>
      simp only [get_media_file_info, htitle, hfind, hft, hdec, Except.ok.injEq] at hok
      rw [← hok]
      exact htne

/-- C9 witness: the fallback on `Song(1).mp3` is defined and non-empty. -/
theorem claim_C9_witness :
    (fallbackTrackName "Song(1).mp3".toList).isSome = true
    ∧ (fallbackTrackName "Song(1).mp3".toList).getD [] ≠ [] :=
  claim_C9.1 "Song(1).mp3".toList "mp3".toList (by decide) (by decide)

end NMD
